import Mathlib

/-!
Verification of the ktl future/promise/packaged-task/async-pool cluster.

Shallow embedding of the C++ sources:
* `kfuture.hpp` (promise/future/packaged task): `detail::future_block_t`,
  `kpromise::set_value`, `kfuture::wait_for/then/get/wait/ready/busy`,
  `kpackaged_task::operator()/reset`.
* `async/kasync.hpp`: `kasync::operator()` and `kasync::~kasync`.
* `kthread.hpp`: `kthread::join`, `kthread::active`.

The typed specialization is embedded with payload type `Int` (the C++ code is
generic in `T`; `Int` stands for an arbitrary copiable value type).  A
continuation callback is identified by a `Nat` id; "invoking callback `c` with
value `v`" is recorded as the event `(c, v)` appended to an event log, which
captures invocation order and multiplicity without embedding arbitrary
closures.  Blocking behaviour is modelled sequentially: `get` on an
undelivered block "blocks", rendered as `none`.
-/

namespace Ktl

/-- Embedding of `enum class future_status { idle, deferred, ready };` -/
inductive future_status where
  | idle : future_status
  | deferred : future_status
  | ready : future_status
deriving DecidableEq, Repr, BEq

/-- Numeric rank of a status, ordered `idle < deferred < ready`; used to state
that the cached status never moves backwards. -/
def future_status.rank : future_status → Nat
  | future_status.idle => 0
  | future_status.deferred => 1
  | future_status.ready => 2

/-- Embedding of `detail::future_block_t<T>`: `payload` (a `std::optional<T>`) and `thens`
(the `std::vector` of registered continuations, kept as callback ids in
registration order).  The mutex and condition variable have no sequential
content and are not represented. -/
structure FutureBlock where
  payload : Option Int
  thens : List Nat
deriving DecidableEq, Repr

/-- The freshly constructed block made by `promise_base_t`'s constructor
(`std::make_shared<future_block_t<T>>()`): empty payload, no continuations. -/
def FutureBlock.empty : FutureBlock := { payload := none, thens := [] }

/-- Embedding of `kfuture<T>`: whether `m_block` is non-null, plus the cached
`m_status`. The block contents themselves are passed separately (they live in
shared state). -/
structure KFuture where
  hasBlock : Bool
  status : future_status
deriving DecidableEq, Repr

/-- Embedding of `kfuture() = default;` — null block, value-initialized status (`idle`). -/
def kfutureDefault : KFuture := { hasBlock := false, status := future_status.idle }

/-- The private `kfuture(block)` constructor used by `get_future`:
`m_block(std::move(block)), m_status(future_status::deferred)`. -/
def kfutureBound : KFuture := { hasBlock := true, status := future_status.deferred }

/-- Embedding of `kfuture::valid()`: `m_block != nullptr`. -/
def kfuture.valid (f : KFuture) : Bool := f.hasBlock

/-- Embedding of `kpromise<T>::set_value(u...)`: under the block's lock, emplace the
payload, then invoke every registered continuation with `*payload`; returns
the updated block together with the list of invocations performed (in
order). -/
def kpromise.set_value (b : FutureBlock) (v : Int) : FutureBlock × List (Nat × Int) :=
  let b2 : FutureBlock := { payload := some v, thens := b.thens }
  (b2, b2.thens.map fun c => (c, b2.payload.getD v))

/-- Embedding of `kpromise<void>`'s block: `payload` is a `bool`, continuations take no
argument. -/
structure FutureBlockV where
  payload : Bool
  thens : List Nat
deriving DecidableEq, Repr

/-- Embedding of `kpromise<void>::set_value()`: set `payload = true`, invoke every
registered continuation (no argument); returns the updated block and the ids
invoked, in order. -/
def kpromise.set_value_void (b : FutureBlockV) : FutureBlockV × List Nat :=
  let b2 : FutureBlockV := { payload := true, thens := b.thens }
  (b2, b2.thens)

/-- Embedding of `kfuture::then(func)`: `assert(m_block); lock; m_block->thens.push_back(func);`
— the callback is only appended, nothing is invoked here. -/
def kfuture.then_ (b : FutureBlock) (c : Nat) : FutureBlock :=
  { b with thens := b.thens ++ [c] }

/-- The contents of `m_block`, when a block is held. -/
def blkPayload : Option FutureBlock → Option Int
  | some b => b.payload
  | none => none

/-- The body of `wait_for`'s do/while polling loop.  `fuel` counts how many
extra iterations the wall-clock bound still allows; the loop body always runs
at least once.  Each iteration takes the lock and tests the payload: if
populated the loop breaks with `ready`, otherwise `m_status` is left as it
was.  (Sequentially the payload cannot change between iterations.) -/
def wait_for_loop (payload : Option Int) (status : future_status) : Nat → future_status
  | 0 => if payload.isSome then future_status.ready else status
  | n + 1 => if payload.isSome then future_status.ready else wait_for_loop payload status n

/-- Embedding of `kfuture::wait_for(duration)`: if the cached `m_status` is `deferred`,
poll the block's payload in the bounded loop (caching `ready` when found);
otherwise return the cached status untouched.  Returns the future with its
updated cache together with the returned status. -/
def kfuture.wait_for (f : KFuture) (blk : Option FutureBlock) (fuel : Nat) :
    KFuture × future_status :=
  if f.status = future_status.deferred then
    let s := wait_for_loop (blkPayload blk) f.status fuel
    ({ f with status := s }, s)
  else (f, f.status)

/-- Embedding of `kfuture::ready()`: `wait_for(0ms) == future_status::ready`. -/
def kfuture.ready (f : KFuture) (blk : Option FutureBlock) : Bool :=
  (kfuture.wait_for f blk 0).2 = future_status.ready

/-- Embedding of `kfuture::busy()`: `wait_for(0ms) == future_status::deferred`. -/
def kfuture.busy (f : KFuture) (blk : Option FutureBlock) : Bool :=
  (kfuture.wait_for f blk 0).2 = future_status.deferred

/-- Embedding of `kfuture::get()`: blocks on the condition variable until the payload is
populated, then returns `*payload`.  Sequentially: `some v` means the call
returns `v`; `none` means the call blocks forever (no producer will run). -/
def kfuture.get (b : FutureBlock) : Option Int := b.payload

/-- Embedding of `kfuture::wait()`: `if (m_block) { get(); }` — `some ()` means the call
returns, `none` means it blocks. -/
def kfuture.wait (f : KFuture) (blk : Option FutureBlock) : Option Unit :=
  if f.hasBlock then (blkPayload blk).map fun _ => () else some ()

/-!  Operational model of a single promise, its shared block and the futures
obtained from it.  All futures issued by `get_future` share the one block, so
the state holds the block once, the list of issued future handles, and the
log of continuation invocations performed so far. -/

/-- State of one promise/block plus every future issued from it and the log of
continuation invocations performed so far. -/
structure SysState where
  block : FutureBlock
  futures : List KFuture
  log : List (Nat × Int)
deriving DecidableEq, Repr

/-- The state right after `kpromise` is constructed (fresh empty block, no
futures issued, no continuation has run). -/
def initState : SysState := { block := FutureBlock.empty, futures := [], log := [] }

/-- The operations a client can perform on the promise/future cluster
(`set_value` at the promise; `then`/`get`/`wait`/`wait_for` on an issued
future, named by its index). -/
inductive Op where
  | getFuture : Op
  | setValue : Int → Op
  | thenOp : Nat → Nat → Op
  | getOp : Nat → Op
  | waitOp : Nat → Op
  | waitFor : Nat → Nat → Op
deriving DecidableEq, Repr

/-- One step of the operational model.  `getFuture` issues a new bound handle
(`promise_base_t::get_future`); `setValue` runs `kpromise::set_value` and
appends the invocations it performed to the log; `thenOp fi c` runs
`futures[fi].then(c)` (which only appends to the block's list); `getOp` and
`waitOp` read shared state but mutate nothing; `waitFor fi fuel` runs
`futures[fi].wait_for`, updating that future's cached status. -/
def step (s : SysState) : Op → SysState
  | Op.getFuture => { s with futures := s.futures ++ [kfutureBound] }
  | Op.setValue v =>
      let r := kpromise.set_value s.block v
      { s with block := r.1, log := s.log ++ r.2 }
  | Op.thenOp fi c =>
      match s.futures[fi]? with
      | some f => if f.hasBlock then { s with block := kfuture.then_ s.block c } else s
      | none => s
  | Op.getOp _ => s
  | Op.waitOp _ => s
  | Op.waitFor fi fuel =>
      match s.futures[fi]? with
      | some f =>
          let r := kfuture.wait_for f (if f.hasBlock then some s.block else none) fuel
          { s with futures := s.futures.set fi r.1 }
      | none => s

/-- Run a sequence of operations from a state. -/
def run (s : SysState) (ops : List Op) : SysState := ops.foldl step s

/-- Number of `setValue` operations in a sequence. -/
def countSet : List Op → Nat
  | [] => 0
  | Op.setValue _ :: rest => countSet rest + 1
  | Op.getFuture :: rest => countSet rest
  | Op.thenOp _ _ :: rest => countSet rest
  | Op.getOp _ :: rest => countSet rest
  | Op.waitOp _ :: rest => countSet rest
  | Op.waitFor _ _ :: rest => countSet rest

/-!  `kpackaged_task<R(Args...)>`.  The stored callable is modelled by a Lean
function `f : Int → Int` (one `Int` argument standing for the argument pack);
`funcValid` is `bool(m_func)` and `promise` is the block currently owned by
the task's `m_promise`. -/

/-- Embedding of `kpackaged_task`: `m_func` (tracked as a validity bit; its behaviour is
supplied separately as a Lean function) and `m_promise`'s block. -/
structure KPackagedTask where
  funcValid : Bool
  promise : FutureBlock
deriving DecidableEq, Repr

/-- Embedding of `kpackaged_task(F f)`: stores the callable (so `valid()` is true) over a
fresh promise. -/
def kpackaged_task.make : KPackagedTask :=
  { funcValid := true, promise := FutureBlock.empty }

/-- Embedding of `kpackaged_task::valid()`: `m_func` holds a callable. -/
def kpackaged_task.valid (t : KPackagedTask) : Bool := t.funcValid

/-- Embedding of `kpackaged_task::get_future()`: `m_promise.get_future()` — a bound handle
onto the block currently held in `t.promise`. -/
def kpackaged_task.get_future (_ : KPackagedTask) : KFuture := kfutureBound

/-- Embedding of `kpackaged_task::reset()`: `m_func = {}; m_promise = {};` — the callable is
dropped and the promise is replaced by a fresh one with a fresh empty block. -/
def kpackaged_task.reset (_ : KPackagedTask) : KPackagedTask :=
  { funcValid := false, promise := FutureBlock.empty }

/-- Embedding of `kpackaged_task::operator()(args)`:
`m_promise.set_value(m_func(args)); reset();`.  Returns the task after the
call, the former promise block after delivery (this is the block every future
obtained before the invocation is still bound to, via shared ownership), and
the continuation invocations performed by `set_value`. -/
def kpackaged_task.call (f : Int → Int) (t : KPackagedTask) (arg : Int) :
    KPackagedTask × FutureBlock × List (Nat × Int) :=
  let r := kpromise.set_value t.promise (f arg)
  (kpackaged_task.reset t, r.1, r.2)

/-!  `kthread` (kthread.hpp) and `kasync` (async/kasync.hpp). -/

/-- Embedding of `kthread`: `m_thread.joinable()`, the `m_join` policy, whether `m_stop`
is allocated and its current value, and whether the underlying thread
function has run to completion (`completed` is the post-condition that
`std::thread::join` establishes by blocking until the thread terminates). -/
structure KThread where
  joinable : Bool
  stopPolicy : Bool
  hasStopFlag : Bool
  stopRequested : Bool
  completed : Bool
deriving DecidableEq, Repr

/-- Embedding of `kthread::request_stop()`: CAS the stop flag to true if one exists. -/
def kthread.request_stop (t : KThread) : KThread × Bool :=
  if t.hasStopFlag then ({ t with stopRequested := true }, !t.stopRequested)
  else (t, false)

/-- Embedding of `kthread::join()`: if joinable, optionally request stop (policy::stop),
then `m_thread.join()` — which blocks until the thread function has finished —
and reset the stop flag; returns whether a join happened.  After `join`, the
wrapped thread has completed and the handle is no longer joinable. -/
def kthread.join (t : KThread) : KThread × Bool :=
  if t.joinable then
    let t1 := if t.stopPolicy then (kthread.request_stop t).1 else t
    ({ t1 with joinable := false, completed := true, hasStopFlag := false }, true)
  else (t, false)

/-- Embedding of `kthread::active()`: `m_thread.joinable()`. -/
def kthread.active (t : KThread) : Bool := t.joinable

/-- An entry of `kasync`'s guarded thread list, as `kasync::operator()` sees
it: its `active()` result and an identity tag (to state frame conditions). -/
structure ThreadEntry where
  active : Bool
  tid : Nat
deriving DecidableEq, Repr

/-- Embedding of `std::erase_if(container, pred)`: remove every element satisfying `pred`,
preserving the order of the rest. -/
def erase_if (p : α → Bool) : List α → List α
  | [] => []
  | x :: xs => if p x then erase_if p xs else x :: erase_if p xs

/-- Embedding of `kasync::operator()(f, args...)`:
constructs a packaged task from the callable, obtains `ret = task.get_future()`
(bound to the task's promise block, still undelivered), locks the thread
list, erases the entries for which `!thread.active()`, pushes back one new
entry running the task, and returns `ret`.  Result: the new thread list, the
returned future, and the block the future is bound to at the moment of
return. -/
def kasync.call (threads : List ThreadEntry) (newTid : Nat) :
    List ThreadEntry × KFuture × FutureBlock :=
  let task := kpackaged_task.make
  let ret := kpackaged_task.get_future task
  let pruned := erase_if (fun t => !t.active) threads
  (pruned ++ [{ active := true, tid := newTid }], ret, task.promise)

/-- Embedding of `kasync::~kasync()`: `ktl::klock(m_threads)->clear();` — clearing the
vector destroys each `kthread`, and `~kthread` calls `join()`. -/
def kasync.destroy (threads : List KThread) : List KThread :=
  threads.map fun t => (kthread.join t).1

/-! ### Basic lemmas about the model -/

theorem run_nil (s : SysState) : run s [] = s := rfl

theorem run_cons (s : SysState) (op : Op) (ops : List Op) :
    run s (op :: ops) = run (step s op) ops := rfl

theorem run_append (s : SysState) (l1 l2 : List Op) :
    run s (l1 ++ l2) = run (run s l1) l2 := by
  simp [run, List.foldl_append]

/-- The polling loop always returns `ready` exactly when the payload is
populated (sequentially the payload is constant across iterations, so the
amount of fuel is irrelevant); otherwise it leaves the status alone. -/
theorem wait_for_loop_eq (payload : Option Int) (st : future_status) (n : Nat) :
    wait_for_loop payload st n =
      if payload.isSome then future_status.ready else st := by
  induction n with
  | zero => rfl
  | succ n ih => cases payload <;> simp [wait_for_loop, ih]

/-- Closed form of `kfuture::wait_for`: poll only when the cached status is
`deferred`; cache `ready` exactly when the payload is populated; otherwise
return the cached status unchanged. -/
theorem wait_for_eq (f : KFuture) (blk : Option FutureBlock) (fuel : Nat) :
    kfuture.wait_for f blk fuel =
      if f.status = future_status.deferred then
        (if (blkPayload blk).isSome then
           ({ f with status := future_status.ready }, future_status.ready)
         else (f, future_status.deferred))
      else (f, f.status) := by
  obtain ⟨hb, st⟩ := f
  by_cases h : st = future_status.deferred
  · subst h
    cases hp : (blkPayload blk).isSome <;>
      simp [kfuture.wait_for, wait_for_loop_eq, hp]
  · simp [kfuture.wait_for, h]

/-! ### Claim theorems -/

/-- Issuing `n` futures (`get_future` called `n` times) only appends `n`
bound handles; the block and the log are untouched. -/
theorem run_replicate_getFuture (s : SysState) (n : Nat) :
    run s (List.replicate n Op.getFuture)
      = { s with futures := s.futures ++ List.replicate n kfutureBound } := by
  induction n generalizing s with
  | zero => simp [run]
  | succ n ih =>
      rw [List.replicate_succ, run_cons, ih]
      simp [step, List.replicate_succ]

/-- Registering a list of continuations on future 0 (a bound handle) only
appends their ids to the block's continuation list, in order; nothing is
invoked and no other component changes. -/
theorem run_thenOps (s : SysState) (cbs : List Nat) (f : KFuture)
    (hf : s.futures[0]? = some f) (hb : f.hasBlock = true) :
    run s (cbs.map fun c => Op.thenOp 0 c)
      = { s with block := { s.block with thens := s.block.thens ++ cbs } } := by
  induction cbs generalizing s with
  | nil => simp [run]
  | cons c cs ih =>
      rw [List.map_cons, run_cons]
      have hstep : step s (Op.thenOp 0 c)
          = { s with block := kfuture.then_ s.block c } := by
        simp [step, hf, hb]
      rw [hstep, ih _ (by simpa using hf)]
      simp [kfuture.then_, List.append_assoc]

theorem all_hasBlock_replicate (n : Nat) :
    (List.replicate n kfutureBound).all (fun f => f.hasBlock) = true := by
  induction n with
  | zero => rfl
  | succ n ih => simp [List.replicate_succ, ih, kfutureBound]

/-- Claim C10: on a default-constructed (invalid, block-less) future the query
operations are total and safe: `wait_for` returns `idle` without accessing
any shared state (the result is the same whatever block contents are
supplied), hence `ready()` and `busy()` are both false, `valid()` is false,
and `wait()` returns immediately without blocking. -/
theorem C10_invalid_future_total (blk blk2 : Option FutureBlock) (fuel fuel2 : Nat) :
    kfuture.wait_for kfutureDefault blk fuel = (kfutureDefault, future_status.idle)
  ∧ kfuture.wait_for kfutureDefault blk fuel = kfuture.wait_for kfutureDefault blk2 fuel2
  ∧ kfuture.ready kfutureDefault blk = false
  ∧ kfuture.busy kfutureDefault blk = false
  ∧ kfuture.valid kfutureDefault = false
  ∧ kfuture.wait kfutureDefault blk = some () := by
  refine ⟨rfl, rfl, rfl, rfl, rfl, rfl⟩

/-- Claim C1 (failing input): deliver a value (42) first, then register
continuation 7 via `then()`.  The code merely appends 7 to the block's
continuation list: the invocation log stays empty, so the callback is never
invoked with the already-delivered value, contradicting the claimed
"invoke immediately if already populated" behaviour. -/
theorem C1_late_then_never_fires :
    (run initState [Op.getFuture, Op.setValue 42, Op.thenOp 0 7]).log = []
  ∧ (run initState [Op.getFuture, Op.setValue 42, Op.thenOp 0 7]).block.thens = [7]
  ∧ (run initState [Op.getFuture, Op.setValue 42, Op.thenOp 0 7]).block.payload = some 42 := by
  refine ⟨rfl, rfl, rfl⟩

/-- Claim C2: with a single `set_value v` on a promise from which `n` futures
were obtained, the block's payload goes from empty (before) to populated with
`v` (after) in that one call; all `n` issued futures are bound to the shared
block, and `get()` on that shared block returns exactly `v`. -/
theorem C2_exactly_once_multicast (n : Nat) (v : Int) :
    (run initState (List.replicate n Op.getFuture)).block.payload = none
  ∧ (run initState (List.replicate n Op.getFuture ++ [Op.setValue v])).block.payload = some v
  ∧ (run initState (List.replicate n Op.getFuture ++ [Op.setValue v])).futures.length = n
  ∧ (run initState (List.replicate n Op.getFuture ++ [Op.setValue v])).futures.all
      (fun f => f.hasBlock) = true
  ∧ kfuture.get (run initState (List.replicate n Op.getFuture ++ [Op.setValue v])).block
      = some v := by
  have h1 := run_replicate_getFuture initState n
  have h2 : run initState (List.replicate n Op.getFuture ++ [Op.setValue v])
      = step (run initState (List.replicate n Op.getFuture)) (Op.setValue v) := by
    rw [run_append]; rfl
  refine ⟨?_, ?_, ?_, ?_, ?_⟩
  · rw [h1]; rfl
  · rw [h2]; rfl
  · rw [h2, h1]; simp [step, initState]
  · rw [h2, h1]; simp [step, initState, kfutureBound, List.mem_replicate]
  · rw [h2]; rfl

/-- Claim C3: continuations registered in order `cbs` before delivery are,
on the single `set_value v`, each invoked exactly once, in registration
order, with the delivered value — the invocation log is exactly
`cbs.map (fun c => (c, v))`.  For the void specialization, `set_value()`
likewise invokes exactly the registered list in order (no argument). -/
theorem C3_continuations_in_order (cbs : List Nat) (v : Int) :
    (run initState ((Op.getFuture :: cbs.map fun c => Op.thenOp 0 c) ++ [Op.setValue v])).log
      = cbs.map (fun c => (c, v))
  ∧ (kpromise.set_value_void { payload := false, thens := cbs }).2 = cbs := by
  refine ⟨?_, rfl⟩
  have hs : step initState Op.getFuture
      = { block := FutureBlock.empty, futures := [kfutureBound], log := [] } := by
    simp [step, initState]
  simp only [run_append, run_cons, run_nil]
  rw [hs, run_thenOps { block := FutureBlock.empty, futures := [kfutureBound], log := [] }
    cbs kfutureBound rfl rfl]
  simp [step, kpromise.set_value, FutureBlock.empty]

/-- Claim C4 (counterexample): the future issued by `get_future()` on a fresh
promise — newly bound, with no wait attempt performed — already has cached
status `deferred`, not `idle`: the bound constructor is
`m_status(future_status::deferred)`. -/
theorem C4_counterexample :
    (run initState [Op.getFuture]).futures.map (fun f => f.status) = [future_status.deferred]
  ∧ future_status.deferred ≠ future_status.idle := by
  exact ⟨rfl, by decide⟩

/-- The cached status can only go up (`wait_for` either leaves it alone or
caches `ready`). -/
theorem wait_for_status_mono (f : KFuture) (blk : Option FutureBlock) (fuel : Nat) :
    future_status.rank f.status
      ≤ future_status.rank (kfuture.wait_for f blk fuel).1.status := by
  rw [wait_for_eq]
  by_cases h : f.status = future_status.deferred
  · cases hp : (blkPayload blk).isSome <;> simp [h, hp, future_status.rank]
  · simp [h]

/-- Per-operation monotonicity of every future's cached status. -/
theorem step_status_monotone (s : SysState) (op : Op) (i : Nat) :
    future_status.rank ((s.futures.getD i kfutureDefault).status)
      ≤ future_status.rank (((step s op).futures.getD i kfutureDefault).status) := by
  cases op with
  | getFuture =>
      by_cases hi : i < s.futures.length
      · rw [show (step s Op.getFuture).futures = s.futures ++ [kfutureBound] from rfl,
          List.getD_append _ _ _ _ hi]
      · rw [List.getD_eq_default _ _ (Nat.le_of_not_lt hi)]
        exact Nat.zero_le _
  | setValue v => exact Nat.le_refl _
  | thenOp fi c =>
      cases hfi : s.futures[fi]? with
      | none => simp [step, hfi]
      | some f => by_cases hb : f.hasBlock <;> simp [step, hfi, hb]
  | getOp n => exact Nat.le_refl _
  | waitOp n => exact Nat.le_refl _
  | waitFor fi fuel =>
      cases hfi : s.futures[fi]? with
      | none => simp [step, hfi]
      | some f =>
          have hlt : fi < s.futures.length := by
            by_contra hc
            rw [List.getElem?_eq_none (Nat.le_of_not_lt hc)] at hfi
            exact Option.noConfusion hfi
          have hstep : (step s (Op.waitFor fi fuel)).futures
              = s.futures.set fi
                  (kfuture.wait_for f (if f.hasBlock then some s.block else none) fuel).1 := by
            simp [step, hfi]
          rw [hstep, List.getD_eq_getElem?_getD, List.getD_eq_getElem?_getD]
          by_cases hij : fi = i
          · subst hij
            rw [List.getElem?_set_self hlt, hfi]
            exact wait_for_status_mono f _ fuel
          · rw [List.getElem?_set_ne hij]

/-- Claim C4 (amended): every future newly bound to a block starts in status
`deferred` (the `idle` status belongs to default-constructed, unbound
futures); no operation ever moves a cached status backwards (with respect to
`idle < deferred < ready`); and `wait_for` moves the cache to `ready` exactly
when the status was `deferred` and the payload is observed populated — in
particular `ready` is terminal and sticky. -/
theorem C4_amended_status_machine :
    (∀ n, (run initState (List.replicate n Op.getFuture)).futures.all
        (fun f => f.status == future_status.deferred) = true)
  ∧ kfutureDefault.status = future_status.idle
  ∧ (∀ s op i, future_status.rank ((s.futures.getD i kfutureDefault).status)
        ≤ future_status.rank (((step s op).futures.getD i kfutureDefault).status))
  ∧ (∀ f blk fuel, (((kfuture.wait_for f blk fuel).1.status == future_status.ready) : Bool)
        = (f.status == future_status.ready
           || (f.status == future_status.deferred && (blkPayload blk).isSome))) := by
  refine ⟨?_, rfl, step_status_monotone, ?_⟩
  · intro n
    rw [run_replicate_getFuture]
    simp [initState, kfutureBound, List.mem_replicate]
    exact Or.inr rfl
  · intro f blk fuel
    obtain ⟨hb, st⟩ := f
    cases st <;> cases hp : (blkPayload blk).isSome <;> simp [wait_for_eq, hp] <;> decide

/-- A bound handle whose cache has observed delivery. -/
def kfutureReady : KFuture := { hasBlock := true, status := future_status.ready }

/-- Invariant of the operational model: every issued future handle is bound
and its cached status is `deferred` or `ready` (never `idle`). -/
def goodState (s : SysState) : Prop :=
  ∀ f ∈ s.futures, f = kfutureBound ∨ f = kfutureReady

theorem step_good (s : SysState) (op : Op) (h : goodState s) : goodState (step s op) := by
  cases op with
  | getFuture =>
      intro f hf
      rcases List.mem_append.mp hf with hf | hf
      · exact h f hf
      · simp at hf; subst hf; exact Or.inl rfl
  | setValue v => exact h
  | thenOp fi c =>
      cases hfi : s.futures[fi]? with
      | none => simpa [step, hfi] using h
      | some g => cases hb : g.hasBlock <;> simpa [step, hfi, hb] using h
  | getOp n => exact h
  | waitOp n => exact h
  | waitFor fi fuel =>
      cases hfi : s.futures[fi]? with
      | none => simpa [step, hfi] using h
      | some g =>
          intro f hf
          have hstep : (step s (Op.waitFor fi fuel)).futures
              = s.futures.set fi
                  (kfuture.wait_for g (if g.hasBlock then some s.block else none) fuel).1 := by
            simp [step, hfi]
          rw [hstep] at hf
          rcases List.mem_or_eq_of_mem_set hf with hf | hf
          · exact h f hf
          · subst hf
            rcases h g (List.getElem?_mem hfi) with hg | hg <;> subst hg
            · rw [wait_for_eq]
              cases hp : (blkPayload (if kfutureBound.hasBlock then some s.block else none)).isSome <;>
                simp [kfutureBound, kfutureReady, hp]
            · rw [wait_for_eq]
              simp [kfutureReady]

theorem run_good (ops : List Op) : goodState (run initState ops) := by
  have key : ∀ s, goodState s → goodState (run s ops) := by
    induction ops with
    | nil => exact fun s h => h
    | cons op rest ih => exact fun s h => ih (step s op) (step_good s op h)
  refine key initState ?_
  intro f hf
  simp [initState] at hf

/-- Claim C6: a valid future whose cached status is not `ready` necessarily
has status `deferred`; its `wait_for` (any duration) polls the shared block:
if the payload is populated it caches `ready` and returns it, and if the
payload is still empty it returns the previously cached status unchanged. -/
theorem C6_wait_for_polls (ops : List Op) (i fuel : Nat) (f : KFuture)
    (hf : (run initState ops).futures[i]? = some f)
    (hnr : f.status ≠ future_status.ready) :
    f.hasBlock = true ∧ f.status = future_status.deferred
  ∧ ((run initState ops).block.payload.isSome = true →
       kfuture.wait_for f (some (run initState ops).block) fuel
         = ({ hasBlock := f.hasBlock, status := future_status.ready }, future_status.ready))
  ∧ ((run initState ops).block.payload = none →
       kfuture.wait_for f (some (run initState ops).block) fuel
         = (f, future_status.deferred)) := by
  have hg := run_good ops
  have hmem : f ∈ (run initState ops).futures := List.getElem?_mem hf
  rcases hg f hmem with h | h
  · subst h
    refine ⟨rfl, rfl, ?_, ?_⟩
    · intro hp
      rw [wait_for_eq]
      simp [kfutureBound, blkPayload, hp]
    · intro hp
      rw [wait_for_eq]
      simp [kfutureBound, blkPayload, hp]
  · subst h
    exact absurd rfl hnr

/-- Witness for C6 at a concrete reachable state: one future issued, payload
still empty, zero-duration wait returns `deferred` and leaves the cache
unchanged. -/
theorem C6_wait_for_polls_witness :
    kfuture.wait_for { hasBlock := true, status := future_status.deferred }
        (some (run initState [Op.getFuture]).block) 0
      = ({ hasBlock := true, status := future_status.deferred }, future_status.deferred) :=
  (C6_wait_for_polls [Op.getFuture] 0 0 { hasBlock := true, status := future_status.deferred }
    (by decide) (by decide)).2.2.2 (by decide)

/-- Whether an operation is a delivery (`set_value`). -/
def Op.isSet : Op → Bool
  | Op.setValue _ => true
  | Op.getFuture => false
  | Op.thenOp _ _ => false
  | Op.getOp _ => false
  | Op.waitOp _ => false
  | Op.waitFor _ _ => false

/-- No operation other than `set_value` touches the block's payload. -/
theorem step_payload_of_not_set (s : SysState) (op : Op) (h : Op.isSet op = false) :
    (step s op).block.payload = s.block.payload := by
  cases op with
  | getFuture => rfl
  | setValue v => simp [Op.isSet] at h
  | thenOp fi c =>
      cases hfi : s.futures[fi]? with
      | none => simp [step, hfi]
      | some f => cases hb : f.hasBlock <;> simp [step, hfi, hb, kfuture.then_]
  | getOp n => rfl
  | waitOp n => rfl
  | waitFor fi fuel =>
      cases hfi : s.futures[fi]? with
      | none => simp [step, hfi]
      | some f => simp [step, hfi]

theorem run_payload_of_no_set (s : SysState) (ops : List Op) (h : countSet ops = 0) :
    (run s ops).block.payload = s.block.payload := by
  induction ops generalizing s with
  | nil => rfl
  | cons op rest ih =>
      rw [run_cons]
      cases op with
      | setValue v => simp [countSet] at h
      | getFuture =>
          rw [ih _ (by simpa [countSet] using h)]
          exact step_payload_of_not_set s _ rfl
      | thenOp fi c =>
          rw [ih _ (by simpa [countSet] using h)]
          exact step_payload_of_not_set s _ rfl
      | getOp n =>
          rw [ih _ (by simpa [countSet] using h)]
          exact step_payload_of_not_set s _ rfl
      | waitOp n =>
          rw [ih _ (by simpa [countSet] using h)]
          exact step_payload_of_not_set s _ rfl
      | waitFor fi fuel =>
          rw [ih _ (by simpa [countSet] using h)]
          exact step_payload_of_not_set s _ rfl

/-- Without a delivery, the block's payload stays empty. -/
theorem payload_none_of_no_set (ops : List Op) (h : countSet ops = 0) :
    (run initState ops).block.payload = none := by
  rw [run_payload_of_no_set initState ops h]; rfl

theorem countSet_append (l1 l2 : List Op) :
    countSet (l1 ++ l2) = countSet l1 + countSet l2 := by
  induction l1 with
  | nil => simp [countSet]
  | cons op l1 ih => cases op <;> simp [countSet, ih] <;> omega

/-- Claim C9: in any run from a fresh promise in which `set_value` occurs at
most once, once the payload is populated with `v` after some prefix of the
operations, it is still populated with that same `v` after any continuation
of the run (over `then`, `get`, `wait`, `wait_for`, `get_future`); no
operation reverts the payload to empty. -/
theorem C9_payload_monotone (pre post : List Op) (v : Int)
    (h1 : (run initState pre).block.payload = some v)
    (h2 : countSet (pre ++ post) ≤ 1) :
    (run initState (pre ++ post)).block.payload = some v := by
  have hpost : countSet post = 0 := by
    have hpre : countSet pre ≠ 0 := by
      intro h0
      rw [payload_none_of_no_set pre h0] at h1
      exact Option.noConfusion h1
    rw [countSet_append] at h2
    omega
  rw [run_append, run_payload_of_no_set _ post hpost, h1]

/-- Witness for C9: deliver 5, then issue a future and poll it — the payload
is still 5. -/
theorem C9_payload_monotone_witness :
    (run initState ([Op.setValue 5] ++ [Op.getFuture, Op.waitFor 0 0])).block.payload
      = some 5 :=
  C9_payload_monotone [Op.setValue 5] [Op.getFuture, Op.waitFor 0 0] 5 (by decide) (by decide)

/-- Claim C5: invoking a valid packaged task with an argument delivers
`f(arg)` into the block every previously obtained future is bound to (their
`get()` returns `f(arg)`), and resets the task: `valid()` becomes false and
the promise is replaced by a fresh, undelivered one. -/
theorem C5_packaged_task_invoke (f : Int → Int) (t : KPackagedTask) (arg : Int)
    (hv : kpackaged_task.valid t = true) (hp : t.promise.payload = none) :
    (kpackaged_task.call f t arg).2.1.payload = some (f arg)
  ∧ kfuture.get (kpackaged_task.call f t arg).2.1 = some (f arg)
  ∧ kpackaged_task.valid (kpackaged_task.call f t arg).1 = false
  ∧ (kpackaged_task.call f t arg).1.promise = FutureBlock.empty := by
  exact ⟨rfl, rfl, rfl, rfl⟩

/-- Witness for C5, the spec's concrete scenario: a task computing `21 * 2`
resolves its future's `get()` to 42 and is afterwards invalid. -/
theorem C5_packaged_task_invoke_witness :
    kfuture.get (kpackaged_task.call (fun _ => (21 : Int) * 2) kpackaged_task.make 0).2.1
        = some 42
  ∧ kpackaged_task.valid
        (kpackaged_task.call (fun _ => (21 : Int) * 2) kpackaged_task.make 0).1 = false :=
  ⟨(C5_packaged_task_invoke (fun _ => (21 : Int) * 2) kpackaged_task.make 0 rfl rfl).2.1,
   (C5_packaged_task_invoke (fun _ => (21 : Int) * 2) kpackaged_task.make 0 rfl rfl).2.2.1⟩

/-- The function `std::erase_if` removes exactly the elements satisfying the predicate,
keeping the others in order. -/
theorem erase_if_eq_filter (p : α → Bool) (l : List α) :
    erase_if p l = l.filter (fun a => !p a) := by
  induction l with
  | nil => rfl
  | cons x xs ih => cases h : p x <;> simp [erase_if, List.filter_cons, h, ih]

/-- Claim C7: one submission to the async pool removes exactly the entries
that are no longer `active()` (the active ones survive, unchanged and in
order), appends exactly one new entry for the freshly spawned thread, and
returns the task's future — a bound, still-`deferred` handle whose block is
still undelivered at the moment of return (the call does not wait for the
task). -/
theorem C7_async_invoke_frame (threads : List ThreadEntry) (newTid : Nat) :
    (kasync.call threads newTid).1
      = threads.filter (fun t => t.active) ++ [{ active := true, tid := newTid }]
  ∧ (kasync.call threads newTid).2.1.status = future_status.deferred
  ∧ (kasync.call threads newTid).2.1.hasBlock = true
  ∧ (kasync.call threads newTid).2.2.payload = none := by
  refine ⟨?_, rfl, rfl, rfl⟩
  simp [kasync.call, erase_if_eq_filter]

theorem join_not_joinable (t : KThread) : (kthread.join t).1.joinable = false := by
  cases h : t.joinable <;> cases h2 : t.stopPolicy <;>
    simp [kthread.join, kthread.request_stop, h, h2]

theorem join_completed (t : KThread) (h : t.joinable = true) :
    (kthread.join t).1.completed = true := by
  cases h2 : t.stopPolicy <;> cases h3 : t.hasStopFlag <;>
    simp [kthread.join, kthread.request_stop, h, h2, h3]

theorem join_drain_pointwise (t : KThread) :
    (!t.joinable || ((kthread.join t).1.completed && !(kthread.join t).1.joinable)) = true := by
  cases h : t.joinable
  · simp
  · simp [join_completed t h, join_not_joinable]

/-- Claim C8: destroying the pool joins every thread in its list: afterwards
no entry is joinable, and every entry that wrapped a live thread has run its
callable to completion; and a completed task invocation has delivered, so the
block of every future issued by a submission holds the callable's result. -/
theorem C8_pool_drain (threads : List KThread) :
    (kasync.destroy threads).all (fun t => !t.joinable) = true
  ∧ (kasync.destroy threads).length = threads.length
  ∧ (threads.zip (kasync.destroy threads)).all
      (fun p => !p.1.joinable || (p.2.completed && !p.2.joinable)) = true
  ∧ (∀ (f : Int → Int) (t : KPackagedTask) (arg : Int),
       kfuture.get (kpackaged_task.call f t arg).2.1 = some (f arg)) := by
  refine ⟨?_, by simp [kasync.destroy], ?_, fun f t arg => rfl⟩
  · simp [kasync.destroy, List.all_map, List.all_eq_true, Function.comp]
    intro t ht
    simp [join_not_joinable]
  · induction threads with
    | nil => rfl
    | cons t ts ih =>
        simp only [kasync.destroy, List.map_cons, List.zip_cons_cons, List.all_cons]
        rw [Bool.and_eq_true]
        exact ⟨join_drain_pointwise t, ih⟩

end Ktl
